import Mathlib

/-!
Verification development for the web-audit crawl-and-analyze pipeline.

The definitions below are a shallow embedding of the JavaScript sources:
  src/modules/siteCrawler.js    (SiteCrawler: crawl, crawlPage, extractLinks,
                                 isNonHtmlLink)
  src/utils/validators.js       (normalizeUrl, isSameDomain, shouldExcludeUrl,
                                 sanitizeFilename)
  src/utils/timeoutUtils.js     (withTimeout, createSafeAnalyzer)
  src/auditor.js                (WebsiteAuditor.run: per-page analysis loop,
                                 checkpoint cadence, fallback objects)

Modelling conventions:
  - WHATWG URLs are modelled by a record of scheme, host, path and optional
    fragment.  An anchor href is either an absolute URL, a relative reference
    that resolves against the base page (adopting its scheme and host), or a
    malformed string on which the URL constructor throws (normalizeUrl then
    returns null).
  - Page HTML is represented by the list of anchor hrefs that the cheerio
    query a[href] yields, in document order, since that is the only part of
    the HTML that link extraction consumes.
  - Exclude patterns (glob strings compiled to regexes in the source) are
    modelled as boolean predicates on URLs.
  - Browser I/O is an oracle: a PageEnv records, per navigation attempt, the
    outcome of page.goto, together with the page content and whether the
    screenshot and archive side effects succeed.
  - Asynchronous behaviour of an analyzer call is an oracle too: it either
    settles with a value after t ms, rejects with an error message after
    t ms, or never settles.  Promise.race against the timeout timer is a
    comparison of the settle time with the deadline.
-/

namespace WebAudit

/-- A parsed WHATWG URL: scheme, host, path, optional fragment. -/
structure Url where
  scheme : String
  host : String
  path : String
  fragment : Option String
deriving DecidableEq, Repr

/-- An href attribute value as seen by link extraction: absolute, relative
(resolved against the base page), or malformed (URL constructor throws). -/
inductive Href where
  | abs (u : Url)
  | rel (path : String) (fragment : Option String)
  | malformed (raw : String)
deriving DecidableEq, Repr

/-- validators.js normalizeUrl: new URL(href, base).href, null on throw. -/
def normalizeUrl (href : Href) (base : Url) : Option Url :=
  match href with
  | .abs u => some u
  | .rel p f => some { scheme := base.scheme, host := base.host, path := p, fragment := f }
  | .malformed _ => none

/-- validators.js isSameDomain: compares the two hostnames for equality.
Note: only the hostname is compared; the scheme is not part of the check. -/
def isSameDomain (u1 u2 : Url) : Bool :=
  u1.host == u2.host

/-- An exclude pattern, modelled as a predicate on URLs (the source compiles
the glob string to a regex and tests the URL string against it). -/
def ExcludePattern : Type := Url → Bool

/-- validators.js shouldExcludeUrl: some pattern matches the URL. -/
def shouldExcludeUrl (u : Url) (pats : List ExcludePattern) : Bool :=
  pats.any (fun p => p u)

/-- validators.js sanitizeFilename: non-alphanumeric characters become an
underscore, then the whole string is lowercased. -/
def sanitizeFilename (s : String) : String :=
  ⟨s.data.map (fun c => if c.isAlphanum then c.toLower else '_')⟩

/-- siteCrawler.js isNonHtmlLink extension table. -/
def nonHtmlExtensionList : List String :=
  [".pdf", ".doc", ".docx", ".xls", ".xlsx", ".zip", ".jpg", ".jpeg",
   ".png", ".gif", ".svg", ".mp4", ".mp3", ".css", ".js"]

/-- String.prototype.toLowerCase, character by character. -/
def strToLower (s : String) : String :=
  ⟨s.data.map Char.toLower⟩

/-- String.prototype.endsWith, via the character lists. -/
def strEndsWith (s suffix : String) : Bool :=
  suffix.data.isSuffixOf s.data

/-- siteCrawler.js isNonHtmlLink: the lowercased pathname ends in a known
non-document extension. -/
def isNonHtmlLink (u : Url) : Bool :=
  nonHtmlExtensionList.any (fun ext => strEndsWith (strToLower u.path) ext)

/-- Crawl options, the subset of WebsiteAuditor options that SiteCrawler
reads: start url, maxDepth, maxPages, excludePatterns, screenshot and
archive toggles, output directory. -/
structure CrawlOptions where
  url : Url
  maxDepth : Nat
  maxPages : Nat
  excludePatterns : List ExcludePattern
  takeScreenshots : Bool
  createArchive : Bool
  outputDir : String

/-- An HTTP response as seen through puppeteer: status and statusText. -/
structure HttpResponse where
  status : Nat
  statusText : String
deriving DecidableEq, Repr

/-- puppeteer response.ok(): status in the range 200-299. -/
def HttpResponse.isOk (r : HttpResponse) : Bool :=
  decide (200 ≤ r.status) && decide (r.status ≤ 299)

/-- Outcome of one page.goto attempt: a response, or a thrown navigation
error (including navigation timeout). -/
inductive NavResult where
  | ok (r : HttpResponse)
  | err (msg : String)

/-- The browser-side oracle for one URL: per-attempt navigation outcomes,
page content (title and anchor hrefs), and whether the screenshot and the
archive write succeed (some msg = the call throws msg). -/
structure PageEnv where
  nav : Nat → NavResult
  title : String
  html : List Href
  screenshotFail : Option String
  archiveFail : Option String

/-- A site: the environment the browser presents for each URL. -/
def Site : Type := Url → PageEnv

/-- The PageRecord assembled by crawlPage on success. -/
structure PageData where
  url : Url
  title : String
  html : List Href
  statusCode : Nat
  depth : Nat
  screenshotPath : Option String
  archivePath : Option String
deriving DecidableEq, Repr

/-- Trace of the retry loop around page.goto in crawlPage: the response (if
any attempt succeeded), the last error, the backoff delays awaited between
attempts, and the number of attempts made. -/
structure NavTrace where
  response : Option HttpResponse
  lastError : Option String
  delays : List Nat
  attemptsMade : Nat

/-- The body of the for-loop over attempts 1..3 in crawlPage: on success
break with the response; on error record it and, if attempts remain, await
delay(2000 * attempt) and try again. -/
def gotoAttempts (nav : Nat → NavResult) : Nat → Nat → Option String → List Nat → NavTrace
  | 0, attempt, lastErr, ds =>
      { response := none, lastError := lastErr, delays := ds, attemptsMade := attempt - 1 }
  | remaining + 1, attempt, lastErr, ds =>
      match nav attempt with
      | .ok r => { response := some r, lastError := lastErr, delays := ds, attemptsMade := attempt }
      | .err m =>
          if remaining == 0 then
            { response := none, lastError := some m, delays := ds, attemptsMade := attempt }
          else
            gotoAttempts nav remaining (attempt + 1) (some m) (ds ++ [2000 * attempt])

/-- crawlPage's navigation retry loop: up to 3 attempts starting at 1. -/
def gotoRetries (nav : Nat → NavResult) : NavTrace :=
  gotoAttempts nav 3 1 none []

/-- The fetch part of siteCrawler.js crawlPage (lines after the visited
check): navigate with retries, require an ok response, take the screenshot
and write the archive when enabled (both unguarded in the source, so a
failure there propagates out of crawlPage), and assemble the PageRecord. -/
def crawlPageFetch (env : PageEnv) (opts : CrawlOptions) (url : Url) (depth : Nat) :
    Except String PageData :=
  match (gotoRetries env.nav).response with
  | none =>
      .error ("Failed after 3 attempts: " ++ (gotoRetries env.nav).lastError.getD "Unknown error")
  | some r =>
      if !r.isOk then
        .error ("HTTP " ++ toString r.status ++ ": " ++ r.statusText)
      else
        match (if opts.takeScreenshots then env.screenshotFail else none) with
        | some m => .error m
        | none =>
            match (if opts.createArchive then env.archiveFail else none) with
            | some m => .error m
            | none =>
                .ok { url := url
                      title := env.title
                      html := env.html
                      statusCode := r.status
                      depth := depth
                      screenshotPath :=
                        if opts.takeScreenshots then
                          some (opts.outputDir ++ "/screenshots/" ++
                            sanitizeFilename (if url.path = "" then "index" else url.path) ++ ".jpg")
                        else none
                      archivePath :=
                        if opts.createArchive then
                          some (opts.outputDir ++ "/archive/" ++
                            sanitizeFilename (if url.path = "" then "index" else url.path) ++ ".html")
                        else none }

/-- siteCrawler.js extractLinks: for each anchor href, resolve it against
the page URL, keep it only if it is same-domain with the start URL, not
excluded, carries no fragment and has no non-document extension; collect
into a Set (insertion order, first occurrence kept) and finally drop URLs
already visited. -/
def extractStep (opts : CrawlOptions) (baseUrl : Url) (acc : List Url) (href : Href) :
    List Url :=
  match normalizeUrl href baseUrl with
  | none => acc
  | some u =>
      if !isSameDomain u opts.url then acc
      else if shouldExcludeUrl u opts.excludePatterns then acc
      else if u.fragment.isSome then acc
      else if isNonHtmlLink u then acc
      else if acc.contains u then acc
      else acc ++ [u]

/-- The full extractLinks: fold the filter chain over the anchors, then
drop already-visited URLs (Array.from(links).filter at the end). -/
def extractLinks (opts : CrawlOptions) (visited : List Url) (html : List Href)
    (baseUrl : Url) : List Url :=
  (html.foldl (extractStep opts baseUrl) []).filter (fun u => !visited.contains u)

/-- The mutable state of SiteCrawler: visitedUrls, pages, toVisit. -/
structure CrawlState where
  visited : List Url
  pages : List PageData
  toVisit : List Url

/-- One iteration of the for-loop over the current batch in crawl(): skip a
URL that is visited or when the page cap is reached; otherwise mark it
visited (crawlPage adds it before fetching), fetch it, and on success push
the PageRecord and, when currentDepth < maxDepth, enqueue its extracted
links (extraction sees the updated visited set).  A fetch error is caught
and only skips this URL. -/
def processUrl (site : Site) (opts : CrawlOptions) (depth : Nat)
    (s : CrawlState) (url : Url) : CrawlState :=
  if s.visited.contains url || decide (opts.maxPages ≤ s.pages.length) then s
  else
    let visited' := url :: s.visited
    match crawlPageFetch (site url) opts url depth with
    | .error _ => { s with visited := visited' }
    | .ok pd =>
        { visited := visited'
          pages := s.pages ++ [pd]
          toVisit :=
            if depth < opts.maxDepth then
              s.toVisit ++ extractLinks opts visited' (site url).html url
            else s.toVisit }

/-- Processing a whole depth batch: the for-loop over currentBatch. -/
def processBatch (site : Site) (opts : CrawlOptions) (depth : Nat)
    (batch : List Url) (s : CrawlState) : CrawlState :=
  batch.foldl (processUrl site opts depth) s

/-- The while-loop guard of crawl(): pending batch nonempty, page count
below maxPages, and currentDepth at most maxDepth. -/
def crawlCond (opts : CrawlOptions) (depth : Nat) (s : CrawlState) : Bool :=
  !s.toVisit.isEmpty && decide (s.pages.length < opts.maxPages)
    && decide (depth ≤ opts.maxDepth)

/-- The crawler state at the start of while-loop iteration d (currentDepth
= d).  Iteration d snapshots toVisit as the batch, clears it, processes the
batch, and increments currentDepth; when the guard fails the state is left
unchanged (the loop has exited). -/
def stateAt (site : Site) (opts : CrawlOptions) : Nat → CrawlState
  | 0 => { visited := [], pages := [], toVisit := [opts.url] }
  | d + 1 =>
      let s := stateAt site opts d
      if crawlCond opts d s then
        processBatch site opts d s.toVisit { s with toVisit := [] }
      else s

/-- The batch processed at depth d (empty when the loop guard already
failed there, i.e. the loop never ran at depth d). -/
def batchAt (site : Site) (opts : CrawlOptions) (d : Nat) : List Url :=
  let s := stateAt site opts d
  if crawlCond opts d s then s.toVisit else []

/-- SiteCrawler.crawl(): the guard requires currentDepth ≤ maxDepth and
currentDepth starts at 0 and increases by one per iteration, so the loop
runs at most maxDepth + 1 iterations; the state after maxDepth + 1
iterations is therefore the loop's final state, and crawl returns its
pages. -/
def crawl (site : Site) (opts : CrawlOptions) : List PageData :=
  (stateAt site opts (opts.maxDepth + 1)).pages

/-! ## Bounded analyzer wrapper (timeoutUtils.js) and the per-page
analysis orchestration (auditor.js). -/

/-- A JavaScript value, as far as the analysis pipeline observes them. -/
inductive JsVal where
  | str (s : String)
  | num (n : Int)
  | bool (b : Bool)
  | nullV
  | arr (elems : List JsVal)
  | obj (fields : List (String × JsVal))
deriving Repr

/-- First-match field lookup on a JS object value. -/
def getField (v : JsVal) (k : String) : Option JsVal :=
  match v with
  | .obj fields => fields.lookup k
  | _ => none

/-- The asynchronous behaviour of one analyzer invocation: it settles with
a value after t ms, rejects with an error message after t ms, or never
settles. -/
inductive AnalyzerBehavior where
  | completes (v : JsVal) (t : Nat)
  | throws (msg : String) (t : Nat)
  | neverSettles

/-- JS substring test on character lists (String.prototype.includes). -/
def charsInclude (needle : List Char) : List Char → Bool
  | [] => needle.isEmpty
  | c :: rest => needle.isPrefixOf (c :: rest) || charsInclude needle rest

/-- String.prototype.includes. -/
def strIncludes (s sub : String) : Bool :=
  charsInclude sub.data s.data

/-- The message of the rejection raised by the withTimeout timer. -/
def timeoutMsg (operationName : String) (timeoutMs : Nat) : String :=
  operationName ++ " timed out after " ++ toString (timeoutMs / 1000) ++ " seconds"

/-- timeoutUtils.js withTimeout: Promise.race of the underlying promise and
a timer that rejects with the timeout message after timeoutMs.  Whichever
settles first wins; the model resolves the race by comparing the settle
time with the deadline. -/
def withTimeout (b : AnalyzerBehavior) (timeoutMs : Nat) (operationName : String) :
    Except String JsVal :=
  match b with
  | .completes v t =>
      if t < timeoutMs then .ok v else .error (timeoutMsg operationName timeoutMs)
  | .throws m t =>
      if t < timeoutMs then .error m else .error (timeoutMsg operationName timeoutMs)
  | .neverSettles => .error (timeoutMsg operationName timeoutMs)

/-- The keys the catch branch of createSafeAnalyzer writes. -/
def annotationKeys : List String := ["error", "timedOut", "timestamp"]

/-- The object built in the catch branch of createSafeAnalyzer:
a copy of the fallback spread together with error, timedOut (the error
message contains the substring "timed out") and timestamp fields.  The JS
spread keeps an overridden key at its original position; only lookup
semantics matter here, so overridden keys are placed at the end, which is
lookup-equivalent. -/
def annotateFallback (fallback : List (String × JsVal)) (msg now : String) : JsVal :=
  .obj (fallback.filter (fun kv => !annotationKeys.contains kv.1) ++
    [("error", .str msg),
     ("timedOut", .bool (strIncludes msg "timed out")),
     ("timestamp", .str now)])

/-- timeoutUtils.js createSafeAnalyzer, applied to one invocation whose
underlying behaviour is b.  On success within the deadline the result is
returned unchanged; on any rejection (analyzer error or timer) the
annotated fallback is returned.  now is the ISO timestamp taken in the
catch branch. -/
def createSafeAnalyzer (fallback : List (String × JsVal)) (operationName : String)
    (timeoutMs : Nat) (b : AnalyzerBehavior) (now : String) : JsVal :=
  match withTimeout b timeoutMs operationName with
  | .ok v => v
  | .error msg => annotateFallback fallback msg now

/-- auditor.js fallback for Link Analysis. -/
def linkFallback : List (String × JsVal) :=
  [("links", .arr []), ("summary", .str "Analysis timed out or failed")]

/-- auditor.js fallback for Accessibility Analysis. -/
def accessibilityFallback : List (String × JsVal) :=
  [("score", .num 0), ("violations", .arr []),
   ("summary", .str "Analysis timed out or failed")]

/-- auditor.js fallback for SEO Analysis. -/
def seoFallback : List (String × JsVal) :=
  [("score", .num 0), ("title", .obj [("exists", .bool true)]),
   ("metaDescription", .obj [("exists", .bool true)]),
   ("summary", .str "Analysis timed out or failed")]

/-- auditor.js fallback for Performance Analysis. -/
def performanceFallback : List (String × JsVal) :=
  [("score", .num 0), ("summary", .str "Analysis timed out or failed")]

/-- auditor.js fallback for AI Analysis. -/
def aiFallback : List (String × JsVal) :=
  [("accessibility", .obj [("summary", .str "AI analysis timed out or failed"), ("issues", .arr [])]),
   ("seo", .obj [("summary", .str "AI analysis timed out or failed"), ("issues", .arr [])]),
   ("content", .obj [("summary", .str "AI analysis timed out or failed"), ("recommendations", .arr [])]),
   ("uiux", .obj [("summary", .str "AI analysis timed out or failed"), ("recommendations", .arr [])]),
   ("structuredData", .obj [("summary", .str "AI analysis timed out or failed"), ("recommendations", .arr [])]),
   ("linkLabels", .obj [("summary", .str "AI analysis timed out or failed"), ("issues", .arr [])]),
   ("performance", .obj [("summary", .str "AI analysis timed out or failed"), ("recommendations", .arr [])])]

/-- The behaviours of the five wrapped stage invocations for one page.  The
AI stage receives the results of the four technical stages as inputs, so
its behaviour is a function of those results. -/
structure StageBehaviors where
  link : AnalyzerBehavior
  accessibility : AnalyzerBehavior
  seo : AnalyzerBehavior
  performance : AnalyzerBehavior
  ai : JsVal → JsVal → JsVal → JsVal → AnalyzerBehavior

/-- The analysis object assembled for one page in auditor.js run(). -/
structure AnalysisRecord where
  links : JsVal
  accessibility : JsVal
  seo : JsVal
  performance : JsVal
  ai : JsVal
deriving Repr

/-- The default per-stage deadline used by auditor.js (5 minutes). -/
def stageTimeoutMs : Nat := 300000

/-- The try-block body of the per-page loop in auditor.js run(): run the
four technical stages through their safe wrappers, then the AI stage with
their results as inputs, and assemble the analysis object. -/
def analyzePage (b : StageBehaviors) (now : String) : AnalysisRecord :=
  let linkResults := createSafeAnalyzer linkFallback "Link Analysis" stageTimeoutMs b.link now
  let accessibilityResults :=
    createSafeAnalyzer accessibilityFallback "Accessibility Analysis" stageTimeoutMs b.accessibility now
  let seoResults := createSafeAnalyzer seoFallback "SEO Analysis" stageTimeoutMs b.seo now
  let performanceResults :=
    createSafeAnalyzer performanceFallback "Performance Analysis" stageTimeoutMs b.performance now
  let aiResults := createSafeAnalyzer aiFallback "AI Analysis" stageTimeoutMs
    (b.ai linkResults accessibilityResults seoResults performanceResults) now
  { links := linkResults
    accessibility := accessibilityResults
    seo := seoResults
    performance := performanceResults
    ai := aiResults }

/-! ## Checkpoint cadence of the per-page loop (auditor.js run, lines
146-194, and saveIntermediateResults). -/

/-- An entry of this.results.pages: a successfully analyzed page, or a page
recorded with an error and analysis null by the catch branch.  Pages are
identified by their 1-based position in the crawl order. -/
inductive PageEntry where
  | analyzed (position : Nat)
  | failed (position : Nat) (msg : String)
deriving DecidableEq, Repr

/-- State threaded through the per-page loop: processedCount, the
aggregate result list, the positions at which saveIntermediateResults ran,
and the current content of intermediate_results.json (none before the
first write; each write replaces it with the whole result list). -/
structure AuditState where
  processedCount : Nat
  pages : List PageEntry
  checkpointWrites : List Nat
  checkpointFile : Option (List PageEntry)
deriving DecidableEq, Repr

/-- One iteration of the per-page loop.  outcome none: the body runs to
completion, the page result is pushed and, when processedCount is a
multiple of 5, saveIntermediateResults rewrites the checkpoint file with
the whole result list.  outcome some msg: the body throws before the push,
and the catch branch pushes the error entry (no checkpoint). -/
def auditStep (s : AuditState) (outcome : Option String) : AuditState :=
  let pc := s.processedCount + 1
  match outcome with
  | none =>
      let pages' := s.pages ++ [.analyzed pc]
      if pc % 5 == 0 then
        { processedCount := pc, pages := pages'
          checkpointWrites := s.checkpointWrites ++ [pc]
          checkpointFile := some pages' }
      else
        { processedCount := pc, pages := pages'
          checkpointWrites := s.checkpointWrites
          checkpointFile := s.checkpointFile }
  | some m =>
      { processedCount := pc, pages := s.pages ++ [.failed pc m]
        checkpointWrites := s.checkpointWrites
        checkpointFile := s.checkpointFile }

/-- The initial state of the per-page loop. -/
def auditInit : AuditState :=
  { processedCount := 0, pages := [], checkpointWrites := [], checkpointFile := none }

/-- The whole per-page loop over the crawled pages, given each page's
body outcome. -/
def runAudit (outcomes : List (Option String)) : AuditState :=
  outcomes.foldl auditStep auditInit

/-- The positions at which the code writes a checkpoint, computed directly:
position k (1-based, counting every processed page, successes and failures
alike) gets a write exactly when page k's body succeeds and k is a
multiple of 5. -/
def checkpointPositionsFrom (k : Nat) : List (Option String) → List Nat
  | [] => []
  | o :: rest =>
      (if o.isNone && (k + 1) % 5 == 0 then [k + 1] else [])
        ++ checkpointPositionsFrom (k + 1) rest

/-- Checkpoint positions for a run starting at page 1. -/
def checkpointPositions (outcomes : List (Option String)) : List Nat :=
  checkpointPositionsFrom 0 outcomes

/-! ## Lemmas about the crawler -/

/-- A successful crawlPageFetch records the fetched URL and the current
depth on the PageRecord. -/
theorem crawlPageFetch_ok_fields {env : PageEnv} {opts : CrawlOptions} {url : Url}
    {depth : Nat} {pd : PageData} (h : crawlPageFetch env opts url depth = .ok pd) :
    pd.url = url ∧ pd.depth = depth := by
  unfold crawlPageFetch at h
  rcases hr : (gotoRetries env.nav).response with _ | r <;> rw [hr] at h
  · simp at h
  · split at h
    · simp at h
    · split at h
      · simp at h
      · split at h
        · simp at h
        · split at h
          · simp at h
          · rw [Except.ok.injEq] at h
            rw [← h]
            exact ⟨rfl, rfl⟩

/-- The skip branch of the batch loop: a visited URL, or one arriving when
the page cap is reached, leaves the state unchanged. -/
theorem processUrl_skip {opts : CrawlOptions} {s : CrawlState} {u : Url}
    (site : Site) (depth : Nat) (h : u ∈ s.visited ∨ opts.maxPages ≤ s.pages.length) :
    processUrl site opts depth s u = s := by
  unfold processUrl
  rw [if_pos]
  rcases h with h | h
  · simp [h]
  · simp [h]

/-- The fetch-failure branch: the URL is marked visited, nothing else
changes. -/
theorem processUrl_err {opts : CrawlOptions} {s : CrawlState} {u : Url} {m : String}
    (site : Site) (depth : Nat) (h1 : u ∉ s.visited) (h2 : s.pages.length < opts.maxPages)
    (he : crawlPageFetch (site u) opts u depth = .error m) :
    processUrl site opts depth s u = { s with visited := u :: s.visited } := by
  unfold processUrl
  rw [if_neg, he]
  simp [h1, Nat.not_le.mpr h2]

/-- The fetch-success branch: the URL is marked visited, its PageRecord is
appended, and when depth < maxDepth its extracted links are enqueued. -/
theorem processUrl_ok {opts : CrawlOptions} {s : CrawlState} {u : Url} {pd : PageData}
    (site : Site) (depth : Nat) (h1 : u ∉ s.visited) (h2 : s.pages.length < opts.maxPages)
    (ho : crawlPageFetch (site u) opts u depth = .ok pd) :
    processUrl site opts depth s u =
      { visited := u :: s.visited
        pages := s.pages ++ [pd]
        toVisit :=
          if depth < opts.maxDepth then
            s.toVisit ++ extractLinks opts (u :: s.visited) (site u).html u
          else s.toVisit } := by
  unfold processUrl
  rw [if_neg, ho]
  simp [h1, Nat.not_le.mpr h2]

/-- Case analysis on one URL step of the batch loop: either the URL is
skipped or its fetch fails (pages and toVisit unchanged, visited possibly
extended), or it is fetched (page appended, URL marked visited, links
possibly enqueued). -/
theorem processUrl_spec (site : Site) (opts : CrawlOptions) (depth : Nat)
    (s : CrawlState) (u : Url) :
    ((processUrl site opts depth s u).pages = s.pages ∧
      (processUrl site opts depth s u).toVisit = s.toVisit ∧
      ((processUrl site opts depth s u).visited = s.visited ∨
        (processUrl site opts depth s u).visited = u :: s.visited))
    ∨ (∃ pd, crawlPageFetch (site u) opts u depth = .ok pd ∧ pd.url = u ∧
        pd.depth = depth ∧ u ∉ s.visited ∧ s.pages.length < opts.maxPages ∧
        (processUrl site opts depth s u).visited = u :: s.visited ∧
        (processUrl site opts depth s u).pages = s.pages ++ [pd] ∧
        ((processUrl site opts depth s u).toVisit = s.toVisit ∨
          (processUrl site opts depth s u).toVisit =
            s.toVisit ++ extractLinks opts (u :: s.visited) (site u).html u)) := by
  by_cases hvis : u ∈ s.visited
  · rw [processUrl_skip site depth (Or.inl hvis)]
    exact Or.inl ⟨rfl, rfl, Or.inl rfl⟩
  · by_cases hcap : opts.maxPages ≤ s.pages.length
    · rw [processUrl_skip site depth (Or.inr hcap)]
      exact Or.inl ⟨rfl, rfl, Or.inl rfl⟩
    · have hlt := Nat.lt_of_not_le hcap
      rcases hfetch : crawlPageFetch (site u) opts u depth with m | pd
      · rw [processUrl_err site depth hvis hlt hfetch]
        exact Or.inl ⟨rfl, rfl, Or.inr rfl⟩
      · obtain ⟨hu, hd⟩ := crawlPageFetch_ok_fields hfetch
        rw [processUrl_ok site depth hvis hlt hfetch]
        refine Or.inr ⟨pd, rfl, hu, hd, hvis, hlt, rfl, rfl, ?_⟩
        by_cases hdep : depth < opts.maxDepth <;> simp [hdep]

/-- Processing one URL never removes visited entries. -/
theorem processUrl_visited_mono (site : Site) (opts : CrawlOptions) (depth : Nat)
    (s : CrawlState) (u : Url) :
    s.visited ⊆ (processUrl site opts depth s u).visited := by
  rcases processUrl_spec site opts depth s u with ⟨_, _, h | h⟩ | ⟨pd, _, _, _, _, _, h, _, _⟩ <;>
    rw [h]
  · exact fun x hx => hx
  · exact List.subset_cons_self u s.visited
  · exact List.subset_cons_self u s.visited

/-- Processing one URL never removes pages. -/
theorem processUrl_pages_mono (site : Site) (opts : CrawlOptions) (depth : Nat)
    (s : CrawlState) (u : Url) :
    ∃ t, (processUrl site opts depth s u).pages = s.pages ++ t := by
  rcases processUrl_spec site opts depth s u with ⟨h, _, _⟩ | ⟨pd, _, _, _, _, _, _, h, _⟩
  · exact ⟨[], by simp [h]⟩
  · exact ⟨[pd], h⟩

/-- Master description of one depth batch: the pages appended by the batch
carry the batch depth, their URLs form a duplicate-free subsequence of the
batch (so they are fetched one at a time in discovery order), none of them
was visited before the batch, all of them are visited afterwards, the
visited set only grows, and the page cap is preserved. -/
theorem processBatch_spec (site : Site) (opts : CrawlOptions) (depth : Nat) :
    ∀ (batch : List Url) (s : CrawlState),
    ∃ t, (processBatch site opts depth batch s).pages = s.pages ++ t ∧
      List.Sublist (t.map PageData.url) batch ∧
      (∀ p ∈ t, p.depth = depth ∧ p.url ∉ s.visited) ∧
      (t.map PageData.url).Nodup ∧
      s.visited ⊆ (processBatch site opts depth batch s).visited ∧
      (∀ p ∈ t, p.url ∈ (processBatch site opts depth batch s).visited) ∧
      (s.pages.length ≤ opts.maxPages →
        (processBatch site opts depth batch s).pages.length ≤ opts.maxPages) := by
  intro batch
  induction batch with
  | nil =>
      intro s
      exact ⟨[], by simp [processBatch], List.nil_sublist _, by simp, by simp,
        fun x hx => hx, by simp, fun h => by simpa [processBatch] using h⟩
  | cons u rest ih =>
      intro s
      have hfold : processBatch site opts depth (u :: rest) s =
          processBatch site opts depth rest (processUrl site opts depth s u) := by
        simp [processBatch]
      obtain ⟨t₁, hpages₁, hsub₁, hmem₁, hnd₁, hvismono₁, hvisin₁, hcap₁⟩ :=
        ih (processUrl site opts depth s u)
      have hsmono := processUrl_visited_mono site opts depth s u
      rcases processUrl_spec site opts depth s u with
        ⟨hpg, _, _⟩ | ⟨pd, hfetch, hu, hd, hnv, hlen, hvis, hpg, _⟩
      · refine ⟨t₁, ?_, hsub₁.cons u, ?_, hnd₁, ?_, ?_, ?_⟩
        · rw [hfold, hpages₁, hpg]
        · intro p hp
          exact ⟨(hmem₁ p hp).1, fun hc => (hmem₁ p hp).2 (hsmono hc)⟩
        · rw [hfold]; exact fun x hx => hvismono₁ (hsmono hx)
        · rw [hfold]; exact hvisin₁
        · intro hle
          rw [hfold]
          exact hcap₁ (by rw [hpg]; exact hle)
      · refine ⟨pd :: t₁, ?_, ?_, ?_, ?_, ?_, ?_, ?_⟩
        · rw [hfold, hpages₁, hpg, List.append_assoc, List.singleton_append]
        · have : (pd :: t₁).map PageData.url = u :: t₁.map PageData.url := by
            simp [hu]
          rw [this]
          exact hsub₁.cons₂ u
        · intro p hp
          rcases List.mem_cons.mp hp with hpe | hpt
          · subst hpe; exact ⟨hd, by rw [hu]; exact hnv⟩
          · refine ⟨(hmem₁ p hpt).1, fun hc => (hmem₁ p hpt).2 ?_⟩
            rw [hvis]
            exact List.mem_cons_of_mem u hc
        · rw [List.map_cons, List.nodup_cons]
          constructor
          · intro hc
            obtain ⟨q, hq, hqu⟩ := List.mem_map.mp hc
            apply (hmem₁ q hq).2
            rw [hvis, hqu, hu]
            exact List.mem_cons_self _ _
          · exact hnd₁
        · rw [hfold]; exact fun x hx => hvismono₁ (hsmono hx)
        · intro p hp
          rw [hfold]
          rcases List.mem_cons.mp hp with hpe | hpt
          · subst hpe
            apply hvismono₁
            rw [hvis, hu]
            exact List.mem_cons_self _ _
          · exact hvisin₁ p hpt
        · intro hle
          rw [hfold]
          apply hcap₁
          rw [hpg, List.length_append, List.length_singleton]
          exact hlen

/-- After its own step, a batch URL is either visited or the page cap has
been reached. -/
theorem processUrl_covers (site : Site) (opts : CrawlOptions) (depth : Nat)
    (s : CrawlState) (u : Url) :
    u ∈ (processUrl site opts depth s u).visited ∨
      opts.maxPages ≤ (processUrl site opts depth s u).pages.length := by
  by_cases hvis : u ∈ s.visited
  · exact Or.inl (processUrl_visited_mono site opts depth s u hvis)
  · by_cases hcap : opts.maxPages ≤ s.pages.length
    · rw [processUrl_skip site depth (Or.inr hcap)]
      exact Or.inr hcap
    · have hlt := Nat.lt_of_not_le hcap
      rcases hfetch : crawlPageFetch (site u) opts u depth with m | pd
      · rw [processUrl_err site depth hvis hlt hfetch]
        exact Or.inl (List.mem_cons_self u s.visited)
      · rw [processUrl_ok site depth hvis hlt hfetch]
        exact Or.inl (List.mem_cons_self u s.visited)

/-- The visited set only grows across a batch. -/
theorem processBatch_visited_mono (site : Site) (opts : CrawlOptions) (depth : Nat)
    (batch : List Url) (s : CrawlState) :
    s.visited ⊆ (processBatch site opts depth batch s).visited :=
  (processBatch_spec site opts depth batch s).choose_spec.2.2.2.2.1

/-- The page list only grows across a batch. -/
theorem processBatch_len_mono (site : Site) (opts : CrawlOptions) (depth : Nat)
    (batch : List Url) (s : CrawlState) :
    s.pages.length ≤ (processBatch site opts depth batch s).pages.length := by
  obtain ⟨t, hpages, -, -, -, -, -, -⟩ := processBatch_spec site opts depth batch s
  rw [hpages, List.length_append]
  exact Nat.le_add_right _ _

/-- Every URL of a batch has, by the end of the batch, either been marked
visited or been skipped because the page cap was reached (and the cap,
once reached, persists). -/
theorem processBatch_covers (site : Site) (opts : CrawlOptions) (depth : Nat) :
    ∀ (batch : List Url) (s : CrawlState), ∀ v ∈ batch,
    v ∈ (processBatch site opts depth batch s).visited ∨
      opts.maxPages ≤ (processBatch site opts depth batch s).pages.length := by
  intro batch
  induction batch with
  | nil => intro s v hv; cases hv
  | cons u rest ih =>
      intro s v hv
      have hfold : processBatch site opts depth (u :: rest) s =
          processBatch site opts depth rest (processUrl site opts depth s u) := by
        simp [processBatch]
      rcases List.mem_cons.mp hv with hvu | hvr
      · rw [hvu]
        rcases processUrl_covers site opts depth s u with hin | hcap
        · left
          rw [hfold]
          exact processBatch_visited_mono site opts depth rest _ hin
        · right
          rw [hfold]
          exact le_trans hcap (processBatch_len_mono site opts depth rest _)
      · rw [hfold]
        exact ih (processUrl site opts depth s u) v hvr

/-- One unfolding step of the while loop. -/
theorem stateAt_succ (site : Site) (opts : CrawlOptions) (d : Nat) :
    stateAt site opts (d + 1) =
      (if crawlCond opts d (stateAt site opts d) then
        processBatch site opts d (stateAt site opts d).toVisit
          { stateAt site opts d with toVisit := [] }
      else stateAt site opts d) := rfl

/-- A failed loop guard stays failed on the same state at any later depth
(the depth conjunct only gets harder). -/
theorem crawlCond_false_mono {opts : CrawlOptions} {d e : Nat} {s : CrawlState}
    (hde : d ≤ e) (h : crawlCond opts d s = false) : crawlCond opts e s = false := by
  unfold crawlCond at h ⊢
  rcases Bool.and_eq_false_iff.mp h with h12 | h3
  · rcases Bool.and_eq_false_iff.mp h12 with h1 | h2
    · simp [h1]
    · simp [h2]
  · simp only [decide_eq_false_iff_not] at h3
    have he : ¬ e ≤ opts.maxDepth := fun hc => h3 (le_trans hde hc)
    simp [he]

/-- Once the loop guard fails, the state never changes again. -/
theorem stateAt_frozen (site : Site) (opts : CrawlOptions) {d : Nat}
    (h : crawlCond opts d (stateAt site opts d) = false) :
    ∀ e, d ≤ e → stateAt site opts e = stateAt site opts d := by
  intro e
  induction e with
  | zero => intro hde; cases Nat.le_zero.mp hde; rfl
  | succ e ihe =>
      intro hde
      rcases Nat.lt_or_ge d (e + 1) with hlt | hge
      · have hde' : d ≤ e := Nat.lt_succ_iff.mp hlt
        have heq := ihe hde'
        have hcond : crawlCond opts e (stateAt site opts e) = false := by
          rw [heq]
          exact crawlCond_false_mono hde' h
        rw [stateAt_succ, if_neg (by simp [hcond])]
        exact heq
      · have hd : d = e + 1 := Nat.le_antisymm hde hge
        rw [hd]

/-- The visited set only grows over loop iterations. -/
theorem stateAt_visited_mono (site : Site) (opts : CrawlOptions) {d e : Nat} (h : d ≤ e) :
    (stateAt site opts d).visited ⊆ (stateAt site opts e).visited := by
  induction e with
  | zero => cases Nat.le_zero.mp h; exact fun x hx => hx
  | succ e ihe =>
      rcases Nat.lt_or_ge d (e + 1) with hlt | hge
      · have hde : d ≤ e := Nat.lt_succ_iff.mp hlt
        refine subset_trans (ihe hde) ?_
        rw [stateAt_succ]
        split
        · exact processBatch_visited_mono site opts e (stateAt site opts e).toVisit
            { stateAt site opts e with toVisit := [] }
        · exact fun x hx => hx
      · have hd : d = e + 1 := Nat.le_antisymm h hge
        rw [hd]
        exact fun x hx => hx

/-- The page list only grows over loop iterations, by appending. -/
theorem stateAt_pages_prefix (site : Site) (opts : CrawlOptions) {d e : Nat} (h : d ≤ e) :
    ∃ t, (stateAt site opts e).pages = (stateAt site opts d).pages ++ t := by
  induction e with
  | zero => cases Nat.le_zero.mp h; exact ⟨[], by simp⟩
  | succ e ihe =>
      rcases Nat.lt_or_ge d (e + 1) with hlt | hge
      · have hde : d ≤ e := Nat.lt_succ_iff.mp hlt
        obtain ⟨t₁, ht₁⟩ := ihe hde
        rw [stateAt_succ]
        split
        · obtain ⟨t₂, ht₂, -, -, -, -, -, -⟩ :=
            processBatch_spec site opts e (stateAt site opts e).toVisit
              { stateAt site opts e with toVisit := [] }
          exact ⟨t₁ ++ t₂, by rw [ht₂]; simp [ht₁]⟩
        · exact ⟨t₁, ht₁⟩
      · have : d = e + 1 := Nat.le_antisymm h hge
        rw [this]; exact ⟨[], by simp⟩

/-- The page count only grows over loop iterations. -/
theorem stateAt_len_mono (site : Site) (opts : CrawlOptions) {d e : Nat} (h : d ≤ e) :
    (stateAt site opts d).pages.length ≤ (stateAt site opts e).pages.length := by
  obtain ⟨t, ht⟩ := stateAt_pages_prefix site opts h
  rw [ht, List.length_append]
  exact Nat.le_add_right _ _

/-- Unfolding the loop guard into its three conjuncts. -/
theorem crawlCond_true_iff {opts : CrawlOptions} {d : Nat} {s : CrawlState} :
    crawlCond opts d s = true ↔
      (s.toVisit ≠ [] ∧ s.pages.length < opts.maxPages ∧ d ≤ opts.maxDepth) := by
  unfold crawlCond
  simp [List.isEmpty_iff, and_assoc]

/-- A list whose members are all equal is weakly increasing. -/
theorem pairwise_le_of_all_eq {l : List Nat} {d : Nat} (h : ∀ x ∈ l, x = d) :
    List.Pairwise (· ≤ ·) l := by
  induction l with
  | nil => exact List.Pairwise.nil
  | cons a rest ih =>
      refine List.Pairwise.cons ?_ (ih fun x hx => h x (List.mem_cons_of_mem a hx))
      intro b hb
      rw [h a (List.mem_cons_self a rest), h b (List.mem_cons_of_mem a hb)]

/-- The running invariant of the crawl loop: the page cap is respected,
fetched URLs are pairwise distinct and all marked visited, every page was
fetched at a depth below the current one and within maxDepth, and the
recorded depths are weakly increasing (depth-batch order). -/
def CrawlInv (opts : CrawlOptions) (d : Nat) (s : CrawlState) : Prop :=
  s.pages.length ≤ opts.maxPages ∧
  (s.pages.map PageData.url).Nodup ∧
  (∀ p ∈ s.pages, p.url ∈ s.visited ∧ p.depth < d ∧ p.depth ≤ opts.maxDepth) ∧
  List.Pairwise (· ≤ ·) (s.pages.map PageData.depth)

/-- The invariant holds at every iteration of the crawl loop. -/
theorem crawlInv_holds (site : Site) (opts : CrawlOptions) :
    ∀ d, CrawlInv opts d (stateAt site opts d) := by
  intro d
  induction d with
  | zero =>
      refine ⟨?_, ?_, ?_, ?_⟩ <;> simp [stateAt, CrawlInv]
  | succ d ih =>
      obtain ⟨ihlen, ihnd, ihmem, ihsort⟩ := ih
      rw [stateAt_succ]
      split
      case isFalse hcond =>
          refine ⟨ihlen, ihnd, ?_, ihsort⟩
          intro p hp
          obtain ⟨h1, h2, h3⟩ := ihmem p hp
          exact ⟨h1, Nat.lt_succ_of_lt h2, h3⟩
      case isTrue hcond =>
          obtain ⟨-, hlen, hdep⟩ := crawlCond_true_iff.mp hcond
          obtain ⟨t, hpages, hsub, hmem, hnd, hvismono, hvisin, hcap⟩ :=
            processBatch_spec site opts d (stateAt site opts d).toVisit
              { stateAt site opts d with toVisit := [] }
          refine ⟨hcap ihlen, ?_, ?_, ?_⟩
          · rw [hpages, List.map_append, List.nodup_append]
            refine ⟨ihnd, hnd, ?_⟩
            intro a ha hb
            obtain ⟨p, hp, hpu⟩ := List.mem_map.mp ha
            obtain ⟨q, hq, hqu⟩ := List.mem_map.mp hb
            apply (hmem q hq).2
            have hpv : p.url ∈ (stateAt site opts d).visited := (ihmem p hp).1
            rw [hpu, ← hqu] at hpv
            exact hpv
          · rw [hpages]
            intro p hp
            rcases List.mem_append.mp hp with hps | hpt
            · obtain ⟨h1, h2, h3⟩ := ihmem p hps
              exact ⟨hvismono h1, Nat.lt_succ_of_lt h2, h3⟩
            · refine ⟨hvisin p hpt, ?_, ?_⟩
              · rw [(hmem p hpt).1]; exact Nat.lt_succ_self d
              · rw [(hmem p hpt).1]; exact hdep
          · rw [hpages, List.map_append, List.pairwise_append]
            refine ⟨ihsort, ?_, ?_⟩
            · refine pairwise_le_of_all_eq (d := d) ?_
              intro x hx
              obtain ⟨p, hp, hpx⟩ := List.mem_map.mp hx
              rw [← hpx, (hmem p hp).1]
            · intro a ha b hb
              obtain ⟨p, hp, hpa⟩ := List.mem_map.mp ha
              obtain ⟨q, hq, hqb⟩ := List.mem_map.mp hb
              rw [← hpa, ← hqb, (hmem q hq).1]
              exact Nat.le_of_lt (ihmem p hp).2.1

/-- Every page in the crawl state was fetched at an iteration where the
loop guard held, from the batch of its recorded depth, and its URL was not
yet visited at the start of that iteration. -/
theorem page_origin (site : Site) (opts : CrawlOptions) :
    ∀ e, ∀ p ∈ (stateAt site opts e).pages,
    crawlCond opts p.depth (stateAt site opts p.depth) = true ∧
    p.url ∈ (stateAt site opts p.depth).toVisit ∧
    p.url ∉ (stateAt site opts p.depth).visited := by
  intro e
  induction e with
  | zero => intro p hp; simp [stateAt] at hp
  | succ e ihe =>
      intro p hp
      rw [stateAt_succ] at hp
      by_cases hcond : crawlCond opts e (stateAt site opts e) = true
      · rw [if_pos hcond] at hp
        obtain ⟨t, hpages, hsub, hmem, -, -, -, -⟩ :=
          processBatch_spec site opts e (stateAt site opts e).toVisit
            { stateAt site opts e with toVisit := [] }
        rw [hpages] at hp
        rcases List.mem_append.mp hp with hps | hpt
        · exact ihe p hps
        · obtain ⟨hdep, hnv⟩ := hmem p hpt
          rw [hdep]
          refine ⟨hcond, ?_, hnv⟩
          exact hsub.subset (List.mem_map.mpr ⟨p, hpt, rfl⟩)
      · rw [if_neg hcond] at hp
        exact ihe p hp

/-- Elements produced by one extractStep either satisfy the same-hostname
check against the start URL or were already in the accumulator. -/
theorem extractStep_host (opts : CrawlOptions) (baseUrl : Url) (acc : List Url)
    (href : Href) :
    ∀ v ∈ extractStep opts baseUrl acc href, v.host = opts.url.host ∨ v ∈ acc := by
  intro v hv
  unfold extractStep at hv
  rcases hn : normalizeUrl href baseUrl with _ | u <;> rw [hn] at hv <;> dsimp only at hv
  · exact Or.inr hv
  · by_cases hdom : isSameDomain u opts.url = true
    · rw [if_neg (by simp [hdom])] at hv
      split at hv
      · exact Or.inr hv
      · split at hv
        · exact Or.inr hv
        · split at hv
          · exact Or.inr hv
          · split at hv
            · exact Or.inr hv
            · rcases List.mem_append.mp hv with hva | hvu
              · exact Or.inr hva
              · left
                rw [List.mem_singleton.mp hvu]
                unfold isSameDomain at hdom
                exact (beq_iff_eq.mp hdom)
    · rw [if_pos (by simp [hdom])] at hv
      exact Or.inr hv

/-- Every URL returned by extractLinks has exactly the hostname of the
start URL (extractLinks only checks the hostname, not the scheme). -/
theorem extractLinks_host (opts : CrawlOptions) (visited : List Url) (html : List Href)
    (baseUrl : Url) :
    ∀ u ∈ extractLinks opts visited html baseUrl, u.host = opts.url.host := by
  intro u hu
  unfold extractLinks at hu
  have hu' : u ∈ html.foldl (extractStep opts baseUrl) [] := (List.mem_filter.mp hu).1
  clear hu
  suffices h : ∀ (hs : List Href) (acc : List Url),
      (∀ v ∈ acc, v.host = opts.url.host) →
      ∀ v ∈ hs.foldl (extractStep opts baseUrl) acc, v.host = opts.url.host by
    exact h html [] (by simp) u hu'
  intro hs
  induction hs with
  | nil => intro acc hacc v hv; exact hacc v hv
  | cons hd rest ih =>
      intro acc hacc v hv
      rw [List.foldl_cons] at hv
      refine ih (extractStep opts baseUrl acc hd) ?_ v hv
      intro w hw
      rcases extractStep_host opts baseUrl acc hd w hw with h1 | h2
      · exact h1
      · exact hacc w h2

/-- Same-hostname invariant of the crawl state: every queued URL and every
fetched page is the start URL itself or shares its hostname. -/
def HostInv (opts : CrawlOptions) (s : CrawlState) : Prop :=
  (∀ u ∈ s.toVisit, u = opts.url ∨ u.host = opts.url.host) ∧
  (∀ p ∈ s.pages, p.url = opts.url ∨ p.url.host = opts.url.host)

/-- One URL step preserves the same-hostname invariant, provided the
processed URL itself satisfies it. -/
theorem processUrl_host (site : Site) (opts : CrawlOptions) (depth : Nat)
    (s : CrawlState) (u : Url) (hu : u = opts.url ∨ u.host = opts.url.host)
    (hinv : HostInv opts s) : HostInv opts (processUrl site opts depth s u) := by
  obtain ⟨htv, hpg⟩ := hinv
  rcases processUrl_spec site opts depth s u with
    ⟨hpages, htov, -⟩ | ⟨pd, -, hpdu, -, -, -, -, hpages, htov⟩
  · constructor
    · rw [htov]; exact htv
    · rw [hpages]; exact hpg
  · constructor
    · rcases htov with h | h <;> rw [h]
      · exact htv
      · intro v hv
        rcases List.mem_append.mp hv with hv1 | hv2
        · exact htv v hv1
        · exact Or.inr (extractLinks_host opts _ _ _ v hv2)
    · rw [hpages]
      intro p hp
      rcases List.mem_append.mp hp with hp1 | hp2
      · exact hpg p hp1
      · rw [List.mem_singleton.mp hp2, hpdu]
        exact hu

/-- A whole batch preserves the same-hostname invariant. -/
theorem processBatch_host (site : Site) (opts : CrawlOptions) (depth : Nat) :
    ∀ (batch : List Url) (s : CrawlState),
    (∀ u ∈ batch, u = opts.url ∨ u.host = opts.url.host) →
    HostInv opts s → HostInv opts (processBatch site opts depth batch s) := by
  intro batch
  induction batch with
  | nil => intro s _ hinv; exact hinv
  | cons u rest ih =>
      intro s hbatch hinv
      have hfold : processBatch site opts depth (u :: rest) s =
          processBatch site opts depth rest (processUrl site opts depth s u) := by
        simp [processBatch]
      rw [hfold]
      refine ih _ (fun v hv => hbatch v (List.mem_cons_of_mem u hv)) ?_
      exact processUrl_host site opts depth s u (hbatch u (List.mem_cons_self u rest)) hinv

/-- The same-hostname invariant holds at every loop iteration. -/
theorem hostInv_holds (site : Site) (opts : CrawlOptions) :
    ∀ d, HostInv opts (stateAt site opts d) := by
  intro d
  induction d with
  | zero =>
      constructor
      · intro u hu
        simp only [stateAt, List.mem_singleton] at hu
        exact Or.inl hu
      · intro p hp; simp [stateAt] at hp
  | succ d ih =>
      rw [stateAt_succ]
      split
      · refine processBatch_host site opts d _ _ ?_ ⟨by simp, ih.2⟩
        exact ih.1
      · exact ih

/-! ## Concrete sites used by witnesses and counterexamples -/

/-- A 200 OK response. -/
def okResponse : HttpResponse := { status := 200, statusText := "OK" }

/-- A page environment that always loads fine. -/
def okEnv (title : String) (html : List Href) : PageEnv :=
  { nav := fun _ => .ok okResponse, title := title, html := html,
    screenshotFail := none, archiveFail := none }

def wStart : Url := { scheme := "https", host := "site.test", path := "/", fragment := none }

def wPageB : Url := { scheme := "https", host := "site.test", path := "/b", fragment := none }

/-- A three-page site: the root links to /a (twice) and /b, both leaves. -/
def wSite : Site := fun u =>
  if u = wStart then okEnv "Home" [Href.rel "/a" none, Href.abs wPageB, Href.rel "/a" none]
  else okEnv "Leaf" []

def wOpts : CrawlOptions :=
  { url := wStart, maxDepth := 2, maxPages := 10, excludePatterns := [],
    takeScreenshots := false, createArchive := false, outputDir := "out" }

def cStart : Url := { scheme := "https", host := "example.com", path := "/", fragment := none }

/-- Same hostname as cStart but plain http scheme. -/
def cHttpUrl : Url := { scheme := "http", host := "example.com", path := "/page", fragment := none }

def cOpts : CrawlOptions :=
  { url := cStart, maxDepth := 1, maxPages := 10, excludePatterns := [],
    takeScreenshots := false, createArchive := false, outputDir := "out" }

/-- A site whose https root links to the same host over plain http. -/
def cSite : Site := fun u =>
  if u = cStart then okEnv "Root" [Href.abs cHttpUrl] else okEnv "Downgraded" []

def xStart : Url :=
  { scheme := "https", host := "example.com", path := "/admin/panel", fragment := none }

def xOpts : CrawlOptions :=
  { url := xStart, maxDepth := 1, maxPages := 5,
    excludePatterns := [fun u => u.path = "/admin/panel"],
    takeScreenshots := false, createArchive := false, outputDir := "out" }

def xSite : Site := fun _ => okEnv "Admin" []

/-- The PageRecord the fetch of xStart produces. -/
def xPd : PageData :=
  { url := xStart, title := "Admin", html := [], statusCode := 200, depth := 0,
    screenshotPath := none, archivePath := none }

/-! ## Claim theorems for the crawler -/

/-- C1: for every finite site graph (any Site oracle) and options with
positive maxPages, crawl() terminates (crawl is a total function, defined
by a loop that runs at most maxDepth + 1 iterations) and returns at most
maxPages PageRecords, each with depth at most maxDepth. -/
theorem crawl_terminates_within_caps (site : Site) (opts : CrawlOptions)
    (hpos : 0 < opts.maxPages) :
    (crawl site opts).length ≤ opts.maxPages ∧
    ∀ p ∈ crawl site opts, p.depth ≤ opts.maxDepth := by
  obtain ⟨hlen, -, hmem, -⟩ := crawlInv_holds site opts (opts.maxDepth + 1)
  exact ⟨hlen, fun p hp => (hmem p hp).2.2⟩

/-- Witness for C1 on a concrete three-page site. -/
theorem crawl_terminates_within_caps_witness :
    (crawl wSite wOpts).length ≤ wOpts.maxPages ∧
    ∀ p ∈ crawl wSite wOpts, p.depth ≤ wOpts.maxDepth :=
  crawl_terminates_within_caps wSite wOpts (by decide)

/-- C4: the sequence of PageRecords returned by crawl() is grouped in
depth order (the recorded depths are weakly increasing, so every page of
depth d precedes every page of depth d+1), and within one depth batch the
fetched pages appear as a subsequence of the batch, i.e. one at a time in
discovery order, all carrying the batch depth. -/
theorem crawl_depth_batch_order (site : Site) (opts : CrawlOptions) :
    List.Pairwise (· ≤ ·) ((crawl site opts).map PageData.depth) ∧
    ∀ (depth : Nat) (batch : List Url) (s : CrawlState),
      ∃ t, (processBatch site opts depth batch s).pages = s.pages ++ t ∧
        List.Sublist (t.map PageData.url) batch ∧
        ∀ p ∈ t, p.depth = depth := by
  constructor
  · exact (crawlInv_holds site opts (opts.maxDepth + 1)).2.2.2
  · intro depth batch s
    obtain ⟨t, h1, h2, h3, -, -, -, -⟩ := processBatch_spec site opts depth batch s
    exact ⟨t, h1, h2, fun p hp => (h3 p hp).1⟩

/-- Witness for C4: the depths of the concrete crawl are weakly increasing. -/
theorem crawl_depth_batch_order_witness :
    List.Pairwise (· ≤ ·) ((crawl wSite wOpts).map PageData.depth) :=
  (crawl_depth_batch_order wSite wOpts).1

/-- C5: no URL appears twice in the returned PageRecord sequence, and each
PageRecord's depth is the depth of first discovery: its URL is in the
batch processed at that depth and in no earlier processed batch. -/
theorem crawl_no_duplicate_urls (site : Site) (opts : CrawlOptions) :
    ((crawl site opts).map PageData.url).Nodup ∧
    ∀ p ∈ crawl site opts,
      p.url ∈ batchAt site opts p.depth ∧
      ∀ d, d < p.depth → p.url ∉ batchAt site opts d := by
  constructor
  · exact (crawlInv_holds site opts (opts.maxDepth + 1)).2.1
  · intro p hp
    obtain ⟨hcond, htv, hnv⟩ := page_origin site opts (opts.maxDepth + 1) p hp
    refine ⟨?_, ?_⟩
    · unfold batchAt
      rw [if_pos hcond]
      exact htv
    · intro d hd hmem'
      have hcond' : crawlCond opts d (stateAt site opts d) = true := by
        by_contra hc
        unfold batchAt at hmem'
        rw [if_neg hc] at hmem'
        exact List.not_mem_nil _ hmem'
      have htv' : p.url ∈ (stateAt site opts d).toVisit := by
        unfold batchAt at hmem'
        rwa [if_pos hcond'] at hmem'
      have hstep : stateAt site opts (d + 1) =
          processBatch site opts d (stateAt site opts d).toVisit
            { stateAt site opts d with toVisit := [] } := by
        rw [stateAt_succ, if_pos hcond']
      have hcover := processBatch_covers site opts d (stateAt site opts d).toVisit
        { stateAt site opts d with toVisit := [] } p.url htv'
      rw [← hstep] at hcover
      have hd1 : d + 1 ≤ p.depth := hd
      rcases hcover with hin | hcap
      · exact hnv (stateAt_visited_mono site opts hd1 hin)
      · have hlt := (crawlCond_true_iff.mp hcond).2.1
        exact absurd hlt (Nat.not_lt.mpr (le_trans hcap (stateAt_len_mono site opts hd1)))

/-- Witness for C5: the concrete crawl returns pairwise-distinct URLs. -/
theorem crawl_no_duplicate_urls_witness :
    ((crawl wSite wOpts).map PageData.url).Nodup :=
  (crawl_no_duplicate_urls wSite wOpts).1

/-- C6 counterexample: link extraction does NOT check the scheme.  From an
https start URL, an absolute link to the same hostname over plain http
passes every filter, is enqueued, and its page is crawled: the claimed
"same scheme as the starting URL" fails. -/
theorem extractLinks_scheme_counterexample :
    extractLinks cOpts [cStart] [Href.abs cHttpUrl] cStart = [cHttpUrl] ∧
    (crawl cSite cOpts).map PageData.url = [cStart, cHttpUrl] ∧
    cHttpUrl.scheme ≠ cStart.scheme := by
  refine ⟨rfl, by decide, by decide⟩

/-- C6 (amended): every URL enqueued by link extraction has exactly the
hostname of the starting URL (so the returned set contains zero
cross-hostname URLs), and every returned PageRecord is the start URL or
shares its hostname; the scheme is not checked and may differ. -/
theorem extractLinks_same_host (site : Site) (opts : CrawlOptions)
    (visited : List Url) (html : List Href) (baseUrl : Url) :
    (∀ u ∈ extractLinks opts visited html baseUrl, u.host = opts.url.host) ∧
    ∀ p ∈ crawl site opts, p.url = opts.url ∨ p.url.host = opts.url.host :=
  ⟨extractLinks_host opts visited html baseUrl,
   fun p hp => (hostInv_holds site opts (opts.maxDepth + 1)).2 p hp⟩

/-- Witness for C6: the http link of the counterexample site still shares
the hostname of the start URL. -/
theorem extractLinks_same_host_witness : cHttpUrl.host = cOpts.url.host :=
  (extractLinks_same_host cSite cOpts [cStart] [Href.abs cHttpUrl] cStart).1
    cHttpUrl (by decide)

/-- C10: the starting URL bypasses all frontier filtering.  Even when the
start URL matches an exclude pattern, has a non-document extension or
carries a fragment, crawl() still fetches it first: the filters are only
applied to links extracted from fetched pages, never to the initial
queue. -/
theorem crawl_start_url_bypasses_filters (site : Site) (opts : CrawlOptions)
    (pd : PageData) (hpos : 0 < opts.maxPages)
    (hfiltered : shouldExcludeUrl opts.url opts.excludePatterns = true ∨
      isNonHtmlLink opts.url = true ∨ opts.url.fragment.isSome)
    (hfetch : crawlPageFetch (site opts.url) opts opts.url 0 = .ok pd) :
    (crawl site opts).head? = some pd := by
  have hzero : stateAt site opts 0 =
      { visited := [], pages := [], toVisit := [opts.url] } := rfl
  have hcond : crawlCond opts 0 (stateAt site opts 0) = true := by
    apply crawlCond_true_iff.mpr
    refine ⟨by rw [hzero]; simp, by rw [hzero]; simpa using hpos, Nat.zero_le _⟩
  have h1 : (stateAt site opts 1).pages = [pd] := by
    rw [stateAt_succ, if_pos hcond, hzero]
    have hsingle : processBatch site opts 0 [opts.url]
        { visited := [], pages := [], toVisit := [] } =
        processUrl site opts 0 { visited := [], pages := [], toVisit := [] } opts.url := by
      simp [processBatch]
    show (processBatch site opts 0 [opts.url]
        { visited := [], pages := [], toVisit := [] }).pages = [pd]
    rw [hsingle, processUrl_ok site 0 (by simp) (by simpa using hpos) hfetch]
    simp
  obtain ⟨t, ht⟩ := stateAt_pages_prefix site opts
    (show 1 ≤ opts.maxDepth + 1 by omega)
  unfold crawl
  rw [ht, h1, List.singleton_append]
  rfl

/-- Witness for C10: a start URL matching the operator's exclude pattern
is still fetched first. -/
theorem crawl_start_url_bypasses_filters_witness :
    (crawl xSite xOpts).head? = some xPd :=
  crawl_start_url_bypasses_filters xSite xOpts xPd (by decide)
    (Or.inl rfl) rfl

/-! ## Lemmas about the bounded analyzer wrapper -/

/-- A list is a prefix of itself followed by anything. -/
theorem isPrefixOf_append_self (n l : List Char) : n.isPrefixOf (n ++ l) = true := by
  induction n with
  | nil => simp [List.isPrefixOf]
  | cons c cs ih => simp [List.isPrefixOf, ih]

/-- A prefix occurrence is an occurrence. -/
theorem charsInclude_of_prefix {n hay : List Char} (h : n.isPrefixOf hay = true) :
    charsInclude n hay = true := by
  cases hay with
  | nil =>
      cases n with
      | nil => rfl
      | cons c cs => simp [List.isPrefixOf] at h
  | cons c rest => simp [charsInclude, h]

/-- Occurrences survive consing on the left. -/
theorem charsInclude_cons {n l : List Char} (c : Char) (h : charsInclude n l = true) :
    charsInclude n (c :: l) = true := by
  simp [charsInclude, h]

/-- Occurrences survive appending on the left. -/
theorem charsInclude_append_left {n l : List Char} (h : charsInclude n l = true) :
    ∀ l₁ : List Char, charsInclude n (l₁ ++ l) = true := by
  intro l₁
  induction l₁ with
  | nil => simpa using h
  | cons c rest ih => simpa using charsInclude_cons c ih

/-- The timer's rejection message always contains the substring
"timed out", whatever the operation name and deadline are. -/
theorem timeoutMsg_includes (operationName : String) (ms : Nat) :
    strIncludes (timeoutMsg operationName ms) "timed out" = true := by
  unfold timeoutMsg strIncludes
  simp only [String.data_append]
  rw [List.append_assoc, List.append_assoc]
  apply charsInclude_append_left
  simp only [List.cons_append, List.nil_append]
  apply charsInclude_cons
  apply charsInclude_of_prefix
  simp [List.isPrefixOf]

/-- The deadline elapses before the underlying call settles. -/
def DeadlineExceeded (b : AnalyzerBehavior) (ms : Nat) : Prop :=
  b = .neverSettles ∨ (∃ v t, b = .completes v t ∧ ms ≤ t) ∨
    (∃ m t, b = .throws m t ∧ ms ≤ t)

/-- When the deadline elapses first, the race rejects with the timeout
message. -/
theorem withTimeout_deadline {b : AnalyzerBehavior} {ms : Nat} {operationName : String}
    (h : DeadlineExceeded b ms) :
    withTimeout b ms operationName = .error (timeoutMsg operationName ms) := by
  rcases h with h | ⟨v, t, hb, ht⟩ | ⟨m, t, hb, ht⟩
  · rw [h]; rfl
  · subst hb
    have hnot := Nat.not_lt.mpr ht
    simp [withTimeout, hnot]
  · subst hb
    have hnot := Nat.not_lt.mpr ht
    simp [withTimeout, hnot]

/-- Lookup distributes over append, preferring the left list. -/
theorem lookup_append (l₁ l₂ : List (String × JsVal)) (k : String) :
    (l₁ ++ l₂).lookup k = (l₁.lookup k).or (l₂.lookup k) := by
  induction l₁ with
  | nil => simp [List.lookup]
  | cons h t ih => simp only [List.cons_append, List.lookup]; split <;> simp [ih]

/-- The fallback copy stripped of the annotation keys never resolves an
annotation key. -/
theorem filtered_lookup_none (fb : List (String × JsVal)) (k : String)
    (hk : k ∈ annotationKeys) :
    (fb.filter (fun kv => !annotationKeys.contains kv.1)).lookup k = none := by
  induction fb with
  | nil => rfl
  | cons kv rest ih =>
      rw [List.filter_cons]
      by_cases hkv : kv.1 ∈ annotationKeys
      · have hc : ¬ ((!annotationKeys.contains kv.1) = true) := by simp [hkv]
        rw [if_neg hc]
        exact ih
      · have hne : (k == kv.1) = false :=
          beq_eq_false_iff_ne.mpr (fun hc => hkv (hc ▸ hk))
        have hc : (!annotationKeys.contains kv.1) = true := by simp [hkv]
        rw [if_pos hc, List.lookup_cons, hne]
        exact ih

/-- For a key outside the annotation keys, the filter keeps exactly the
entries the original lookup would see. -/
theorem filtered_lookup_other (fb : List (String × JsVal)) (k : String)
    (hk : k ∉ annotationKeys) :
    (fb.filter (fun kv => !annotationKeys.contains kv.1)).lookup k = fb.lookup k := by
  induction fb with
  | nil => rfl
  | cons kv rest ih =>
      rw [List.filter_cons]
      by_cases hkv : kv.1 ∈ annotationKeys
      · have hne : (k == kv.1) = false :=
          beq_eq_false_iff_ne.mpr (fun hc => hk (hc ▸ hkv))
        have hc : ¬ ((!annotationKeys.contains kv.1) = true) := by simp [hkv]
        rw [if_neg hc, List.lookup_cons, hne]
        exact ih
      · have hc : (!annotationKeys.contains kv.1) = true := by simp [hkv]
        rw [if_pos hc, List.lookup_cons, List.lookup_cons]
        cases k == kv.1
        · exact ih
        · rfl

/-- The three annotation fields of the catch-branch object. -/
theorem annotate_lookup (fb : List (String × JsVal)) (msg now : String) :
    getField (annotateFallback fb msg now) "error" = some (.str msg) ∧
    getField (annotateFallback fb msg now) "timedOut" =
      some (.bool (strIncludes msg "timed out")) ∧
    getField (annotateFallback fb msg now) "timestamp" = some (.str now) := by
  unfold annotateFallback getField
  dsimp only
  refine ⟨?_, ?_, ?_⟩ <;>
    rw [lookup_append, filtered_lookup_none fb _ (by decide)] <;> rfl

/-- Keys outside the annotation keys are preserved from the fallback. -/
theorem annotate_lookup_other (fb : List (String × JsVal)) (msg now : String)
    (k : String) (hk : k ∉ annotationKeys) :
    getField (annotateFallback fb msg now) k = fb.lookup k := by
  unfold annotateFallback getField
  dsimp only
  rw [lookup_append, filtered_lookup_other fb k hk]
  have h1 : (k == ("error" : String)) = false :=
    beq_eq_false_iff_ne.mpr (fun hc => hk (by rw [hc]; decide))
  have h2 : (k == ("timedOut" : String)) = false :=
    beq_eq_false_iff_ne.mpr (fun hc => hk (by rw [hc]; decide))
  have h3 : (k == ("timestamp" : String)) = false :=
    beq_eq_false_iff_ne.mpr (fun hc => hk (by rw [hc]; decide))
  rw [show (List.lookup k [("error", JsVal.str msg),
        ("timedOut", JsVal.bool (strIncludes msg "timed out")),
        ("timestamp", JsVal.str now)]) = none from by
      simp [List.lookup_cons, h1, h2, h3]]
  cases fb.lookup k <;> rfl

/-- A stage field is either the pass-through of an analyzer that settled
with a value within the deadline, or the fallback-tagged object carrying
the error message and the timestamp. -/
def StageIsRealOrFallback (field : JsVal) (fb : List (String × JsVal))
    (b : AnalyzerBehavior) (now : String) : Prop :=
  (∃ v t, b = .completes v t ∧ t < stageTimeoutMs ∧ field = v) ∨
  (∃ msg, field = annotateFallback fb msg now ∧
    getField field "error" = some (.str msg) ∧
    getField field "timestamp" = some (.str now))

/-- Every safe-analyzer invocation yields a real result or a
fallback-tagged value. -/
theorem createSafeAnalyzer_stage (fb : List (String × JsVal)) (operationName : String)
    (b : AnalyzerBehavior) (now : String) :
    StageIsRealOrFallback (createSafeAnalyzer fb operationName stageTimeoutMs b now)
      fb b now := by
  cases b with
  | completes v t =>
      by_cases h : t < stageTimeoutMs
      · exact Or.inl ⟨v, t, rfl, h, by simp [createSafeAnalyzer, withTimeout, h]⟩
      · refine Or.inr ⟨timeoutMsg operationName stageTimeoutMs, ?_, ?_, ?_⟩
        · simp [createSafeAnalyzer, withTimeout, h]
        · rw [show createSafeAnalyzer fb operationName stageTimeoutMs
              (.completes v t) now =
              annotateFallback fb (timeoutMsg operationName stageTimeoutMs) now from by
            simp [createSafeAnalyzer, withTimeout, h]]
          exact (annotate_lookup fb _ now).1
        · rw [show createSafeAnalyzer fb operationName stageTimeoutMs
              (.completes v t) now =
              annotateFallback fb (timeoutMsg operationName stageTimeoutMs) now from by
            simp [createSafeAnalyzer, withTimeout, h]]
          exact (annotate_lookup fb _ now).2.2
  | throws m t =>
      by_cases h : t < stageTimeoutMs
      · refine Or.inr ⟨m, ?_, ?_, ?_⟩
        · simp [createSafeAnalyzer, withTimeout, h]
        · rw [show createSafeAnalyzer fb operationName stageTimeoutMs (.throws m t) now =
              annotateFallback fb m now from by simp [createSafeAnalyzer, withTimeout, h]]
          exact (annotate_lookup fb m now).1
        · rw [show createSafeAnalyzer fb operationName stageTimeoutMs (.throws m t) now =
              annotateFallback fb m now from by simp [createSafeAnalyzer, withTimeout, h]]
          exact (annotate_lookup fb m now).2.2
      · refine Or.inr ⟨timeoutMsg operationName stageTimeoutMs, ?_, ?_, ?_⟩
        · simp [createSafeAnalyzer, withTimeout, h]
        · rw [show createSafeAnalyzer fb operationName stageTimeoutMs (.throws m t) now =
              annotateFallback fb (timeoutMsg operationName stageTimeoutMs) now from by
            simp [createSafeAnalyzer, withTimeout, h]]
          exact (annotate_lookup fb _ now).1
        · rw [show createSafeAnalyzer fb operationName stageTimeoutMs (.throws m t) now =
              annotateFallback fb (timeoutMsg operationName stageTimeoutMs) now from by
            simp [createSafeAnalyzer, withTimeout, h]]
          exact (annotate_lookup fb _ now).2.2
  | neverSettles =>
      refine Or.inr ⟨timeoutMsg operationName stageTimeoutMs, rfl, ?_, ?_⟩
      · exact (annotate_lookup fb _ now).1
      · exact (annotate_lookup fb _ now).2.2

/-- C2: the per-page analysis object always carries all five stage fields,
each being the analyzer's real result or a fallback-tagged value; each
technical stage's field depends only on its own stage behaviour (so a
failing or hanging stage never prevents the others from being recorded),
and the AI stage still runs, fed the four recorded technical results. -/
theorem analysis_stage_fields_present (b b2 : StageBehaviors) (now : String) :
    StageIsRealOrFallback (analyzePage b now).links linkFallback b.link now ∧
    StageIsRealOrFallback (analyzePage b now).accessibility accessibilityFallback
      b.accessibility now ∧
    StageIsRealOrFallback (analyzePage b now).seo seoFallback b.seo now ∧
    StageIsRealOrFallback (analyzePage b now).performance performanceFallback
      b.performance now ∧
    StageIsRealOrFallback (analyzePage b now).ai aiFallback
      (b.ai (analyzePage b now).links (analyzePage b now).accessibility
        (analyzePage b now).seo (analyzePage b now).performance) now ∧
    (analyzePage b now).ai = createSafeAnalyzer aiFallback "AI Analysis" stageTimeoutMs
      (b.ai (analyzePage b now).links (analyzePage b now).accessibility
        (analyzePage b now).seo (analyzePage b now).performance) now ∧
    (b2.link = b.link → (analyzePage b2 now).links = (analyzePage b now).links) ∧
    (b2.accessibility = b.accessibility →
      (analyzePage b2 now).accessibility = (analyzePage b now).accessibility) ∧
    (b2.seo = b.seo → (analyzePage b2 now).seo = (analyzePage b now).seo) ∧
    (b2.performance = b.performance →
      (analyzePage b2 now).performance = (analyzePage b now).performance) := by
  refine ⟨?_, ?_, ?_, ?_, ?_, rfl, ?_, ?_, ?_, ?_⟩
  · exact createSafeAnalyzer_stage linkFallback "Link Analysis" b.link now
  · exact createSafeAnalyzer_stage accessibilityFallback "Accessibility Analysis"
      b.accessibility now
  · exact createSafeAnalyzer_stage seoFallback "SEO Analysis" b.seo now
  · exact createSafeAnalyzer_stage performanceFallback "Performance Analysis"
      b.performance now
  · exact createSafeAnalyzer_stage aiFallback "AI Analysis" _ now
  · intro h; show createSafeAnalyzer _ _ _ b2.link now = createSafeAnalyzer _ _ _ b.link now
    rw [h]
  · intro h
    show createSafeAnalyzer _ _ _ b2.accessibility now =
      createSafeAnalyzer _ _ _ b.accessibility now
    rw [h]
  · intro h; show createSafeAnalyzer _ _ _ b2.seo now = createSafeAnalyzer _ _ _ b.seo now
    rw [h]
  · intro h
    show createSafeAnalyzer _ _ _ b2.performance now =
      createSafeAnalyzer _ _ _ b.performance now
    rw [h]

/-- A stage-behaviour record where the SEO analyzer always throws and the
four other stages complete promptly. -/
def wStages : StageBehaviors :=
  { link := .completes (.obj [("links", .arr [])]) 0
    accessibility := .completes (.obj [("score", .num 95)]) 0
    seo := .throws "SEO crashed" 0
    performance := .completes (.obj [("score", .num 80)]) 0
    ai := fun _ _ _ _ => .completes (.obj [("summary", .str "fine")]) 0 }

/-- Same behaviours except the performance stage hangs forever. -/
def wStagesHang : StageBehaviors := { wStages with performance := .neverSettles }

/-- Witness for C2: the SEO stage of the concrete behaviours throws, yet
its field is the tagged fallback while the link field is untouched by the
performance stage hanging in a second run. -/
theorem analysis_stage_fields_present_witness :
    ((analyzePage wStagesHang "T").links = (analyzePage wStages "T").links) ∧
    getField (analyzePage wStages "T").seo "error" = some (.str "SEO crashed") ∧
    getField (analyzePage wStages "T").seo "timedOut" = some (.bool false) :=
  ⟨(analysis_stage_fields_present wStages wStagesHang "T").2.2.2.2.2.2.1 rfl,
   rfl, rfl⟩

/-- C3 counterexample: an analyzer that rejects immediately (long before
the 5-minute deadline) with a message that happens to contain the phrase
"timed out" is annotated with timedOut = true, although the deadline was
never exceeded: the flag records a substring test on the message, not
whether the timer fired. -/
theorem safeAnalyzer_timedOut_counterexample :
    createSafeAnalyzer seoFallback "SEO Analysis" 300000
        (.throws "upstream request timed out inside analyzer" 10) "2024-01-01" =
      annotateFallback seoFallback "upstream request timed out inside analyzer"
        "2024-01-01" ∧
    (10 : Nat) < 300000 ∧
    getField (createSafeAnalyzer seoFallback "SEO Analysis" 300000
        (.throws "upstream request timed out inside analyzer" 10) "2024-01-01")
      "timedOut" = some (.bool true) :=
  ⟨rfl, by decide, rfl⟩

/-- C3 (amended): on deadline exceeded or any thrown error, the wrapper
returns the fallback extended with the error message, a timestamp, and a
timedOut flag equal to whether the error message contains the substring
"timed out" (hence true for every deadline error; for analyzer errors it
mirrors the message rather than being false); fallback fields other than
error/timedOut/timestamp are preserved in the returned copy. -/
theorem safeAnalyzer_fallback_annotation (fb : List (String × JsVal))
    (operationName : String) (ms : Nat) (b : AnalyzerBehavior) (now : String) :
    (DeadlineExceeded b ms →
      createSafeAnalyzer fb operationName ms b now =
        annotateFallback fb (timeoutMsg operationName ms) now ∧
      getField (createSafeAnalyzer fb operationName ms b now) "timedOut" =
        some (.bool true)) ∧
    (∀ m t, b = .throws m t → t < ms →
      createSafeAnalyzer fb operationName ms b now = annotateFallback fb m now) ∧
    (∀ msg,
      getField (annotateFallback fb msg now) "error" = some (.str msg) ∧
      getField (annotateFallback fb msg now) "timedOut" =
        some (.bool (strIncludes msg "timed out")) ∧
      getField (annotateFallback fb msg now) "timestamp" = some (.str now)) ∧
    (∀ msg k, k ∉ annotationKeys →
      getField (annotateFallback fb msg now) k = fb.lookup k) := by
  refine ⟨?_, ?_, fun msg => annotate_lookup fb msg now,
    fun msg k hk => annotate_lookup_other fb msg now k hk⟩
  · intro h
    have he : createSafeAnalyzer fb operationName ms b now =
        annotateFallback fb (timeoutMsg operationName ms) now := by
      unfold createSafeAnalyzer
      rw [withTimeout_deadline h]
    refine ⟨he, ?_⟩
    rw [he]
    rw [(annotate_lookup fb (timeoutMsg operationName ms) now).2.1]
    rw [timeoutMsg_includes operationName ms]
  · intro m t hb ht
    subst hb
    simp [createSafeAnalyzer, withTimeout, ht]

/-- Witness for C3: a hanging analyzer against a 1000 ms deadline yields
the annotated fallback with timedOut = true, and the fallback's own score
field survives in the copy. -/
theorem safeAnalyzer_fallback_annotation_witness :
    createSafeAnalyzer seoFallback "SEO Analysis" 1000 .neverSettles "2024-01-01" =
      annotateFallback seoFallback (timeoutMsg "SEO Analysis" 1000) "2024-01-01" ∧
    getField (createSafeAnalyzer seoFallback "SEO Analysis" 1000 .neverSettles
      "2024-01-01") "timedOut" = some (.bool true) ∧
    getField (annotateFallback seoFallback "boom" "2024-01-01") "score" =
      some (.num 0) := by
  obtain ⟨h1, h2, h3, h4⟩ := safeAnalyzer_fallback_annotation seoFallback
    "SEO Analysis" 1000 .neverSettles "2024-01-01"
  obtain ⟨he, ht⟩ := h1 (Or.inl rfl)
  exact ⟨he, ht, by rw [h4 "boom" "score" (by decide)]; rfl⟩

/-! ## Claim theorems for the page fetcher -/

/-- C7: navigation is attempted at most 3 times; a success on attempt k
stops the retries after k attempts with delays 2000·1, ..., 2000·(k-1)
between consecutive attempts; when all 3 attempts fail the raised fetch
error carries the last attempt's message; and a final response that is not
ok raises an HTTP fetch error instead of producing a PageRecord. -/
theorem crawlPage_retry_policy (env : PageEnv) (opts : CrawlOptions) (url : Url)
    (depth : Nat) :
    (gotoRetries env.nav).attemptsMade ≤ 3 ∧
    (∀ r, env.nav 1 = .ok r →
      gotoRetries env.nav =
        { response := some r, lastError := none, delays := [], attemptsMade := 1 }) ∧
    (∀ m1 r, env.nav 1 = .err m1 → env.nav 2 = .ok r →
      gotoRetries env.nav =
        { response := some r, lastError := some m1, delays := [2000 * 1],
          attemptsMade := 2 }) ∧
    (∀ m1 m2 r, env.nav 1 = .err m1 → env.nav 2 = .err m2 → env.nav 3 = .ok r →
      gotoRetries env.nav =
        { response := some r, lastError := some m2, delays := [2000 * 1, 2000 * 2],
          attemptsMade := 3 }) ∧
    (∀ m1 m2 m3, env.nav 1 = .err m1 → env.nav 2 = .err m2 → env.nav 3 = .err m3 →
      gotoRetries env.nav =
        { response := none, lastError := some m3, delays := [2000 * 1, 2000 * 2],
          attemptsMade := 3 } ∧
      crawlPageFetch env opts url depth =
        .error ("Failed after 3 attempts: " ++ m3)) ∧
    (∀ r, env.nav 1 = .ok r → r.isOk = false →
      crawlPageFetch env opts url depth =
        .error ("HTTP " ++ toString r.status ++ ": " ++ r.statusText)) := by
  refine ⟨?_, ?_, ?_, ?_, ?_, ?_⟩
  · rcases h1 : env.nav 1 with r1 | m1
    · simp [gotoRetries, gotoAttempts, h1]
    · rcases h2 : env.nav 2 with r2 | m2
      · simp [gotoRetries, gotoAttempts, h1, h2]
      · rcases h3 : env.nav 3 with r3 | m3 <;>
          simp [gotoRetries, gotoAttempts, h1, h2, h3]
  · intro r h1
    simp [gotoRetries, gotoAttempts, h1]
  · intro m1 r h1 h2
    simp [gotoRetries, gotoAttempts, h1, h2]
  · intro m1 m2 r h1 h2 h3
    simp [gotoRetries, gotoAttempts, h1, h2, h3]
  · intro m1 m2 m3 h1 h2 h3
    have htrace : gotoRetries env.nav =
        { response := none, lastError := some m3, delays := [2000 * 1, 2000 * 2],
          attemptsMade := 3 } := by
      simp [gotoRetries, gotoAttempts, h1, h2, h3]
    refine ⟨htrace, ?_⟩
    unfold crawlPageFetch
    rw [htrace]
    rfl
  · intro r h1 hok
    have htrace : gotoRetries env.nav =
        { response := some r, lastError := none, delays := [], attemptsMade := 1 } := by
      simp [gotoRetries, gotoAttempts, h1]
    unfold crawlPageFetch
    rw [htrace]
    simp [hok]

/-- A navigation oracle that fails twice, then succeeds. -/
def rNav : Nat → NavResult := fun n =>
  if n = 1 then .err "net::ERR_TIMED_OUT at pass one"
  else if n = 2 then .err "net::ERR_CONNECTION_RESET"
  else .ok okResponse

def rEnv : PageEnv :=
  { nav := rNav, title := "R", html := [], screenshotFail := none, archiveFail := none }

/-- Witness for C7: with two failures then a success, the fetch makes
exactly 3 attempts with backoff delays 2000 and 4000 ms. -/
theorem crawlPage_retry_policy_witness :
    gotoRetries rEnv.nav =
      { response := some okResponse, lastError := some "net::ERR_CONNECTION_RESET",
        delays := [2000 * 1, 2000 * 2], attemptsMade := 3 } :=
  (crawlPage_retry_policy rEnv wOpts wStart 0).2.2.2.1
    "net::ERR_TIMED_OUT at pass one" "net::ERR_CONNECTION_RESET" okResponse rfl rfl rfl

/-- An environment where navigation succeeds but the screenshot write
throws. -/
def sEnv : PageEnv :=
  { nav := fun _ => .ok okResponse, title := "S", html := [],
    screenshotFail := some "EACCES: screenshot write failed", archiveFail := none }

def sOpts : CrawlOptions :=
  { url := wStart, maxDepth := 2, maxPages := 10, excludePatterns := [],
    takeScreenshots := true, createArchive := false, outputDir := "out" }

/-- C8 evaluation: with screenshots enabled, a page whose navigation
succeeds with HTTP 200 still makes crawlPage throw when the screenshot
write fails, because the screenshot and archive side effects are not
wrapped separately from navigation: the page fetch fails and no PageRecord
is produced, contradicting the best-effort requirement. -/
theorem crawlPage_screenshot_failure_propagates :
    (gotoRetries sEnv.nav).response = some okResponse ∧
    okResponse.isOk = true ∧
    crawlPageFetch sEnv sOpts wStart 0 = .error "EACCES: screenshot write failed" :=
  ⟨rfl, rfl, rfl⟩

/-! ## Claim theorems for the checkpoint cadence -/

/-- A value named by getLast? is a member of the list. -/
theorem mem_of_getLast?_eq {l : List Nat} {a : Nat} (h : l.getLast? = some a) : a ∈ l := by
  obtain ⟨hne, heq⟩ := List.mem_getLast?_eq_getLast (show a ∈ l.getLast? by rw [h]; rfl)
  rw [heq]
  exact List.getLast_mem hne

/-- Every loop iteration increments processedCount by one. -/
theorem auditStep_count (s : AuditState) (o : Option String) :
    (auditStep s o).processedCount = s.processedCount + 1 := by
  cases o with
  | none =>
      by_cases h5 : ((s.processedCount + 1) % 5 == 0) = true <;>
        simp [auditStep, h5]
  | some m => simp [auditStep]

/-- Every loop iteration appends exactly one entry to the result list. -/
theorem auditStep_pages_len (s : AuditState) (o : Option String) :
    (auditStep s o).pages.length = s.pages.length + 1 := by
  cases o with
  | none =>
      by_cases h5 : ((s.processedCount + 1) % 5 == 0) = true <;>
        simp [auditStep, h5]
  | some m => simp [auditStep]

/-- One iteration writes a checkpoint exactly when the body succeeded and
the new processedCount is a multiple of 5. -/
theorem auditStep_writes (s : AuditState) (o : Option String) :
    (auditStep s o).checkpointWrites =
      s.checkpointWrites ++
        (if o.isNone && (s.processedCount + 1) % 5 == 0 then [s.processedCount + 1]
         else []) := by
  cases o with
  | none =>
      by_cases h5 : ((s.processedCount + 1) % 5 == 0) = true <;>
        simp [auditStep, h5]
  | some m => simp [auditStep]

/-- The checkpoint positions of the whole loop, relative to any starting
state. -/
theorem foldl_checkpointWrites :
    ∀ (outcomes : List (Option String)) (s : AuditState),
    (outcomes.foldl auditStep s).checkpointWrites =
      s.checkpointWrites ++ checkpointPositionsFrom s.processedCount outcomes := by
  intro outcomes
  induction outcomes with
  | nil => intro s; simp [checkpointPositionsFrom]
  | cons o rest ih =>
      intro s
      rw [List.foldl_cons, ih, auditStep_writes, auditStep_count,
        List.append_assoc]
      rfl

/-- Invariant of the per-page loop: processedCount equals the result-list
length, every recorded write position is within the list, and the
checkpoint file holds exactly the first pc entries for the last write
position pc (wholesale replacement), or nothing if no write happened. -/
def AuditInv (s : AuditState) : Prop :=
  s.processedCount = s.pages.length ∧
  (∀ w ∈ s.checkpointWrites, w ≤ s.pages.length) ∧
  s.checkpointFile = (s.checkpointWrites.getLast?).map (fun pc => s.pages.take pc)

/-- One iteration preserves the audit invariant. -/
theorem auditStep_inv {s : AuditState} (h : AuditInv s) (o : Option String) :
    AuditInv (auditStep s o) := by
  obtain ⟨hc, hw, hf⟩ := h
  cases o with
  | none =>
      by_cases h5 : ((s.processedCount + 1) % 5 == 0) = true
      · have hstep : auditStep s none =
            { processedCount := s.processedCount + 1
              pages := s.pages ++ [.analyzed (s.processedCount + 1)]
              checkpointWrites := s.checkpointWrites ++ [s.processedCount + 1]
              checkpointFile := some (s.pages ++ [.analyzed (s.processedCount + 1)]) } := by
          simp [auditStep, h5]
        rw [hstep]
        refine ⟨by simp [hc], ?_, ?_⟩
        · intro w hw'
          rcases List.mem_append.mp hw' with h1 | h2
          · exact le_trans (hw w h1) (by simp)
          · rw [List.mem_singleton.mp h2, List.length_append, List.length_singleton, hc]
        · rw [List.getLast?_concat]
          set e := PageEntry.analyzed (s.processedCount + 1) with he
          show some (s.pages ++ [e]) = some ((s.pages ++ [e]).take (s.processedCount + 1))
          rw [show s.processedCount + 1 = (s.pages ++ [e]).length by simp [hc],
            List.take_length]
      · have hstep : auditStep s none =
            { processedCount := s.processedCount + 1
              pages := s.pages ++ [.analyzed (s.processedCount + 1)]
              checkpointWrites := s.checkpointWrites
              checkpointFile := s.checkpointFile } := by
          simp [auditStep, h5]
        rw [hstep]
        refine ⟨by simp [hc], ?_, ?_⟩
        · intro w hw'
          exact le_trans (hw w hw') (by simp)
        · rw [hf]
          cases hlast : s.checkpointWrites.getLast? with
          | none => rfl
          | some pc =>
              have hpc : pc ≤ s.pages.length := hw pc (mem_of_getLast?_eq hlast)
              show some (s.pages.take pc) = some ((s.pages ++ _).take pc)
              rw [List.take_append_of_le_length hpc]
  | some m =>
      have hstep : auditStep s (some m) =
          { processedCount := s.processedCount + 1
            pages := s.pages ++ [.failed (s.processedCount + 1) m]
            checkpointWrites := s.checkpointWrites
            checkpointFile := s.checkpointFile } := by
        simp [auditStep]
      rw [hstep]
      refine ⟨by simp [hc], ?_, ?_⟩
      · intro w hw'
        exact le_trans (hw w hw') (by simp)
      · rw [hf]
        cases hlast : s.checkpointWrites.getLast? with
        | none => rfl
        | some pc =>
            have hpc : pc ≤ s.pages.length := hw pc (mem_of_getLast?_eq hlast)
            show some (s.pages.take pc) = some ((s.pages ++ _).take pc)
            rw [List.take_append_of_le_length hpc]

/-- The audit invariant holds after the whole loop. -/
theorem runAudit_inv (outcomes : List (Option String)) : AuditInv (runAudit outcomes) := by
  unfold runAudit
  have hgen : ∀ (os : List (Option String)) (s : AuditState),
      AuditInv s → AuditInv (os.foldl auditStep s) := by
    intro os
    induction os with
    | nil => intro s hs; exact hs
    | cons o rest ih =>
        intro s hs
        rw [List.foldl_cons]
        exact ih _ (auditStep_inv hs o)
  exact hgen outcomes auditInit ⟨rfl, by simp [auditInit], rfl⟩

/-- C9 counterexample: with page 1 failing and pages 2-6 succeeding, the
only checkpoint write happens after page 5, at which point only 4 pages
were successfully analyzed, and no write happens after the 5th success
(page 6): the trigger counts all processed pages, not successes. -/
def failFirstOutcomes : List (Option String) :=
  [some "merge failed", none, none, none, none, none]

theorem checkpoint_cadence_counterexample :
    (runAudit failFirstOutcomes).checkpointWrites = [5] ∧
    ((failFirstOutcomes.take 5).filter Option.isNone).length = 4 ∧
    (failFirstOutcomes.filter Option.isNone).length = 5 :=
  ⟨rfl, rfl, rfl⟩

/-- C9 (amended): a checkpoint is written exactly after those pages whose
analysis body succeeds and whose 1-based position among all processed
pages (successes and failures alike) is divisible by 5; in a 12-page run
with no failures this is exactly at pages 5 and 10; and each write
replaces the checkpoint file wholesale with the result list as of the
write (the file afterwards equals the first pc entries for the last write
position pc). -/
theorem checkpoint_cadence :
    (∀ outcomes, (runAudit outcomes).checkpointWrites = checkpointPositions outcomes) ∧
    (runAudit (List.replicate 12 none)).checkpointWrites = [5, 10] ∧
    (∀ outcomes, (runAudit outcomes).checkpointFile =
      ((runAudit outcomes).checkpointWrites.getLast?).map
        (fun pc => (runAudit outcomes).pages.take pc)) := by
  refine ⟨?_, by decide, fun outcomes => (runAudit_inv outcomes).2.2⟩
  intro outcomes
  unfold runAudit checkpointPositions
  rw [foldl_checkpointWrites]
  rfl

end WebAudit
